import Mathlib

/-!
Verification of the job-notifier pipeline (`scraper.py`).

The development shallowly embeds the script: pure string processing is
translated directly; every network or filesystem effect is replaced by an
explicit oracle argument (the observed response), and the orchestrator is
a pure function from those oracles to a trace of externally visible events
(fetch calls, classifier calls, notifications, the final save).

Python exceptions are modelled with `Except`: a `.error` value is an
exception escaping the modelled fragment, `.ok` is normal return.
-/

namespace JobNotifier

/-! ## Python string primitives used by the script -/

/-- Model of the ASCII fragment of Python `str.upper` (the script only ever
compares against the ASCII token "YES"). -/
def pyCharUpper (c : Char) : Char :=
  if 'a' ≤ c ∧ c ≤ 'z' then Char.ofNat (c.toNat - 32) else c

/-- `s.upper()` as a character-wise map. -/
def pyStrUpper (s : String) : String :=
  String.mk (s.data.map pyCharUpper)

/-- `isPrefixL p l` : the char list `p` is a prefix of `l`. -/
def isPrefixL : List Char → List Char → Bool
  | [], _ => true
  | _ :: _, [] => false
  | a :: as, b :: bs => a == b && isPrefixL as bs

/-- `hasSubL pat l` : `pat` occurs contiguously inside `l`
(model of Python `pat in l` on strings). -/
def hasSubL (pat : List Char) : List Char → Bool
  | [] => isPrefixL pat []
  | b :: rest => isPrefixL pat (b :: rest) || hasSubL pat rest

/-- Python `needle in hay` for strings. -/
def pyIn (needle hay : String) : Bool :=
  hasSubL needle.data hay.data

/-- Python `s.startswith(pre)`. -/
def pyStartswith (s pre : String) : Bool :=
  isPrefixL pre.data s.data

theorem isPrefixL_iff (p l : List Char) :
    isPrefixL p l = true ↔ ∃ t, l = p ++ t := by
  induction p generalizing l with
  | nil => simp [isPrefixL]
  | cons a as ih =>
    cases l with
    | nil => simp [isPrefixL]
    | cons b bs =>
      simp only [isPrefixL, Bool.and_eq_true, beq_iff_eq, ih, List.cons_append,
        List.cons.injEq]
      constructor
      · rintro ⟨rfl, t, rfl⟩; exact ⟨t, rfl, rfl⟩
      · rintro ⟨t, rfl, rfl⟩; exact ⟨rfl, t, rfl⟩

theorem hasSubL_iff (pat l : List Char) :
    hasSubL pat l = true ↔ ∃ x y, l = x ++ pat ++ y := by
  induction l with
  | nil =>
    simp only [hasSubL, isPrefixL_iff]
    constructor
    · rintro ⟨t, ht⟩
      exact ⟨[], t, by simp [← ht]⟩
    · rintro ⟨x, y, h⟩
      exact ⟨y, by rw [List.nil_eq, List.append_assoc] at h; simp_all⟩
  | cons b bs ih =>
    simp only [hasSubL, Bool.or_eq_true, isPrefixL_iff, ih]
    constructor
    · rintro (⟨t, ht⟩ | ⟨x, y, rfl⟩)
      · exact ⟨[], t, by simp [ht]⟩
      · exact ⟨b :: x, y, by simp⟩
    · rintro ⟨x, y, h⟩
      cases x with
      | nil => exact Or.inl ⟨y, by simpa using h⟩
      | cons c cs =>
        simp only [List.cons_append, List.cons.injEq] at h
        exact Or.inr ⟨cs, y, h.2⟩

theorem hasSubL_sandwich (pat x y : List Char) :
    hasSubL pat (x ++ pat ++ y) = true :=
  (hasSubL_iff pat _).mpr ⟨x, y, rfl⟩

theorem hasSubL_trans {p q r : List Char}
    (h1 : hasSubL p q = true) (h2 : hasSubL q r = true) :
    hasSubL p r = true := by
  obtain ⟨u, v, rfl⟩ := (hasSubL_iff p q).mp h1
  obtain ⟨x, y, rfl⟩ := (hasSubL_iff _ r).mp h2
  exact (hasSubL_iff p _).mpr ⟨x ++ u, v ++ y, by simp⟩

theorem pyIn_trans {p q r : String}
    (h1 : pyIn p q = true) (h2 : pyIn q r = true) : pyIn p r = true :=
  hasSubL_trans h1 h2

theorem string_data_append (a b : String) : (a ++ b).data = a.data ++ b.data :=
  rfl

theorem pyStrUpper_append (a b : String) :
    pyStrUpper (a ++ b) = pyStrUpper a ++ pyStrUpper b := by
  simp only [pyStrUpper, string_data_append, List.map_append]
  rfl

/-! ## Python exceptions and JSON values

`PyErr` names the exception classes that can escape the modelled code.
A raised exception is an `Except.error`. -/

inductive PyErr where
  | indexError
  | attributeError
  | typeError
  | keyError
  | osError
  | unicodeDecodeError
deriving DecidableEq

/-- A decoded JSON value, as produced by Python `json.load`/`json.loads`.
Numbers keep their source lexeme (the script never reads a number, so their
numeric value is irrelevant; only validity of the document matters). -/
inductive JsonVal where
  | null
  | boolVal (b : Bool)
  | num (raw : String)
  | str (s : String)
  | arr (elems : List JsonVal)
  | obj (fields : List (String × JsonVal))

/-! ## JSON parser (model of `json.load` / `json.loads`)

Python's `json` module (strict mode, the default used by the script):
whitespace is space/tab/newline/CR; strings are double quoted with the
escapes `\" \\ \/ \b \f \n \r \t \uXXXX` (a `\uXXXX` high surrogate
followed by a low surrogate combines into one code point); unescaped
control characters are rejected; numbers follow the JSON grammar and the
default parser additionally accepts `NaN`, `Infinity` and `-Infinity`.
The value recursion is driven by a fuel counter; every recursive call
consumes at least one input character, so fuel `length + 2` never runs out
on any input. -/

def jsonWsChar (c : Char) : Bool :=
  c = ' ' || c = '\t' || c = '\n' || c = '\r'

def skipWs : List Char → List Char
  | [] => []
  | c :: rest => if jsonWsChar c then skipWs rest else c :: rest

def hexVal (c : Char) : Option Nat :=
  if '0' ≤ c ∧ c ≤ '9' then some (c.toNat - '0'.toNat)
  else if 'a' ≤ c ∧ c ≤ 'f' then some (c.toNat - 'a'.toNat + 10)
  else if 'A' ≤ c ∧ c ≤ 'F' then some (c.toNat - 'A'.toNat + 10)
  else none

def hex4 (a b c d : Char) : Option Nat :=
  match hexVal a, hexVal b, hexVal c, hexVal d with
  | some x, some y, some z, some w => some (x * 4096 + y * 256 + z * 16 + w)
  | _, _, _, _ => none

/-- The single-character string escapes of JSON. -/
def escMap (e : Char) : Option Char :=
  if e = '"' then some '"'
  else if e = '\\' then some '\\'
  else if e = '/' then some '/'
  else if e = 'b' then some '\x08'
  else if e = 'f' then some '\x0c'
  else if e = 'n' then some '\n'
  else if e = 'r' then some '\r'
  else if e = 't' then some '\t'
  else none

/-- Parse the body of a JSON string literal (the opening quote already
consumed); returns the decoded characters and the input after the closing
quote.  A `\uXXXX` escape becomes the single character `Char.ofNat` of its
code.  (Python additionally merges a high/low surrogate escape pair into
one astral code point; Lean characters are Unicode scalar values, so that
corner — which no claim exercises — is modelled as two `Char.ofNat`
defaults rather than a pair merge.) -/
def parseStrContent : List Char → Option (List Char × List Char)
  | [] => none
  | c :: rest =>
    if c = '"' then some ([], rest)
    else if c = '\\' then
      match rest with
      | [] => none
      | e :: rest1 =>
        if e = 'u' then
          match rest1 with
          | a :: b :: c2 :: d :: rest2 =>
            match hex4 a b c2 d with
            | none => none
            | some n =>
              (parseStrContent rest2).map (fun p => (Char.ofNat n :: p.1, p.2))
          | _ => none
        else
          match escMap e with
          | some c2 => (parseStrContent rest1).map (fun p => (c2 :: p.1, p.2))
          | none => none
    else if c.toNat < 0x20 then none
    else (parseStrContent rest).map (fun p => (c :: p.1, p.2))

/-- Longest leading run of decimal digits. -/
def takeDigits : List Char → List Char × List Char
  | [] => ([], [])
  | c :: rest =>
    if c.isDigit then
      let p := takeDigits rest
      (c :: p.1, p.2)
    else ([], c :: rest)

/-- JSON integer part: `0` alone, or a nonzero digit followed by digits. -/
def parseIntPart : List Char → Option (List Char × List Char)
  | [] => none
  | c :: rest =>
    if c = '0' then some (['0'], rest)
    else if c.isDigit then
      let p := takeDigits rest
      some (c :: p.1, p.2)
    else none

/-- Optional `.digits` fragment; absent fragments leave the input alone
(mirroring the regex `(\.\d+)?` used by Python's scanner). -/
def parseFrac (cs : List Char) : List Char × List Char :=
  match cs with
  | '.' :: rest =>
    let p := takeDigits rest
    if p.1 = [] then ([], cs) else ('.' :: p.1, p.2)
  | _ => ([], cs)

/-- Optional exponent fragment `[eE][+-]?digits`. -/
def parseExp (cs : List Char) : List Char × List Char :=
  match cs with
  | e :: rest =>
    if e = 'e' ∨ e = 'E' then
      match rest with
      | s :: rest2 =>
        if s = '+' ∨ s = '-' then
          let p := takeDigits rest2
          if p.1 = [] then ([], cs) else (e :: s :: p.1, p.2)
        else
          let p := takeDigits rest
          if p.1 = [] then ([], cs) else (e :: p.1, p.2)
      | [] => ([], cs)
    else ([], cs)
  | [] => ([], cs)

/-- JSON number (sign handled by the caller's `-` match), lexeme kept raw. -/
def parseNumBody (cs : List Char) : Option (List Char × List Char) :=
  match parseIntPart cs with
  | none => none
  | some (ip, rest) =>
    let f := parseFrac rest
    let e := parseExp f.2
    some (ip ++ f.1 ++ e.1, e.2)

mutual

/-- One JSON value, preceded by optional whitespace. -/
def parseVal : Nat → List Char → Option (JsonVal × List Char)
  | 0, _ => none
  | fuel + 1, cs =>
    match skipWs cs with
    | '"' :: rest =>
      (parseStrContent rest).map (fun p => (JsonVal.str (String.mk p.1), p.2))
    | '{' :: rest =>
      match skipWs rest with
      | '}' :: rest2 => some (JsonVal.obj [], rest2)
      | rest2 => parseObjMembers fuel rest2
    | '[' :: rest =>
      match skipWs rest with
      | ']' :: rest2 => some (JsonVal.arr [], rest2)
      | rest2 => (parseArrElems fuel rest2).map (fun p => (JsonVal.arr p.1, p.2))
    | 'n' :: 'u' :: 'l' :: 'l' :: rest => some (JsonVal.null, rest)
    | 't' :: 'r' :: 'u' :: 'e' :: rest => some (JsonVal.boolVal true, rest)
    | 'f' :: 'a' :: 'l' :: 's' :: 'e' :: rest => some (JsonVal.boolVal false, rest)
    | 'N' :: 'a' :: 'N' :: rest => some (JsonVal.num "NaN", rest)
    | 'I' :: 'n' :: 'f' :: 'i' :: 'n' :: 'i' :: 't' :: 'y' :: rest =>
      some (JsonVal.num "Infinity", rest)
    | '-' :: 'I' :: 'n' :: 'f' :: 'i' :: 'n' :: 'i' :: 't' :: 'y' :: rest =>
      some (JsonVal.num "-Infinity", rest)
    | '-' :: rest =>
      (parseNumBody rest).map (fun p => (JsonVal.num (String.mk ('-' :: p.1)), p.2))
    | cs2 =>
      (parseNumBody cs2).map (fun p => (JsonVal.num (String.mk p.1), p.2))

/-- Elements of a nonempty array, up to and including the closing `]`. -/
def parseArrElems : Nat → List Char → Option (List JsonVal × List Char)
  | 0, _ => none
  | fuel + 1, cs =>
    match parseVal fuel cs with
    | none => none
    | some (v, rest) =>
      match skipWs rest with
      | ',' :: rest2 => (parseArrElems fuel rest2).map (fun p => (v :: p.1, p.2))
      | ']' :: rest2 => some ([v], rest2)
      | _ => none

/-- Members of a nonempty object, up to and including the closing brace. -/
def parseObjMembers : Nat → List Char → Option (JsonVal × List Char)
  | 0, _ => none
  | fuel + 1, cs =>
    match skipWs cs with
    | '"' :: rest =>
      match parseStrContent rest with
      | none => none
      | some (key, rest2) =>
        match skipWs rest2 with
        | ':' :: rest3 =>
          match parseVal fuel rest3 with
          | none => none
          | some (v, rest4) =>
            match skipWs rest4 with
            | ',' :: rest5 =>
              match parseObjMembers fuel rest5 with
              | some (JsonVal.obj ms, r) => some (JsonVal.obj ((String.mk key, v) :: ms), r)
              | _ => none
            | '}' :: rest5 => some (JsonVal.obj [(String.mk key, v)], rest5)
            | _ => none
        | _ => none
    | _ => none

end

/-- `json.loads` on a whole document: one value, optionally surrounded by
whitespace; anything left over is an error ("Extra data"). -/
def jsonLoads (s : String) : Option JsonVal :=
  match parseVal (s.data.length + 2) s.data with
  | some (v, rest) =>
    match skipWs rest with
    | [] => some v
    | _ => none
  | none => none

/-! ## JSON dumper (model of `json.dump(jobs_list, f, indent=2)`)

Python's encoder with `ensure_ascii=True` (the default): `"` and `\`
and the controls BS/FF/LF/CR/TAB get two-character escapes; every other
character outside `0x20..0x7e` becomes `\uxxxx` (lowercase hex, astral
characters as a surrogate pair); with `indent=2` a nonempty list is laid
out one element per line, two-space indented, and an empty list is `[]`. -/

def hexDigitChar (n : Nat) : Char :=
  if n < 10 then Char.ofNat ('0'.toNat + n) else Char.ofNat ('a'.toNat + n - 10)

def uEscape4 (n : Nat) : List Char :=
  ['\\', 'u', hexDigitChar (n / 4096 % 16), hexDigitChar (n / 256 % 16),
   hexDigitChar (n / 16 % 16), hexDigitChar (n % 16)]

/-- JSON-escape one character, as Python's `json` encoder does. -/
def escCharL (c : Char) : List Char :=
  if c = '"' then ['\\', '"']
  else if c = '\\' then ['\\', '\\']
  else if c = '\n' then ['\\', 'n']
  else if c = '\t' then ['\\', 't']
  else if c = '\r' then ['\\', 'r']
  else if c = '\x08' then ['\\', 'b']
  else if c = '\x0c' then ['\\', 'f']
  else if c.toNat < 0x20 ∨ 0x7e < c.toNat then
    if c.toNat < 0x10000 then uEscape4 c.toNat
    else uEscape4 (0xD800 + (c.toNat - 0x10000) / 0x400) ++
         uEscape4 (0xDC00 + (c.toNat - 0x10000) % 0x400)
  else [c]

/-- A serialized string literal. -/
def dumpStrL (s : List Char) : List Char :=
  '"' :: (s.flatMap escCharL ++ ['"'])

/-- The serialized literal of one stored string. -/
def dumpStrOf (s : String) : List Char := dumpStrL s.data

/-- The element separator produced by `indent=2`: `",\n  "`. -/
def sepL : List Char := [',', '\n', ' ', ' ']

def joinSep : List (List Char) → List Char
  | [] => []
  | [x] => x
  | x :: y :: rest => x ++ sepL ++ joinSep (y :: rest)

/-- The exact character stream `json.dump(xs, f, indent=2)` writes for a
list of strings. -/
def saveData (xs : List String) : List Char :=
  match xs with
  | [] => ['[', ']']
  | _ => '[' :: '\n' :: ' ' :: ' ' :: (joinSep (xs.map dumpStrOf) ++ ['\n', ']'])

/-- `save_processed_jobs(jobs_list)` (`scraper.py` lines 20-23): the full
replacement content written to `processed_jobs.json`. -/
def save_processed_jobs (xs : List String) : String :=
  String.mk (saveData xs)

/-! ## Persisted Link Store: `get_processed_jobs` (`scraper.py` lines 11-18)

The outcome of `open(PROCESSED_JOBS_FILE, 'r')` followed by reading:

* `fileNotFound` — `open` raises `FileNotFoundError`;
* `osError` — `open`/read raises another `OSError` (e.g. `PermissionError`
  on an unreadable file, `IsADirectoryError`);
* `badEncoding` — the bytes are not valid UTF-8, so reading raises
  `UnicodeDecodeError`;
* `content s` — the file decodes to the text `s`.

The source catches exactly `(FileNotFoundError, json.JSONDecodeError)`. -/

inductive FileReadResult where
  | fileNotFound
  | osError
  | badEncoding
  | content (s : String)

def get_processed_jobs (f : FileReadResult) : Except PyErr JsonVal :=
  match f with
  | .fileNotFound => .ok (.arr [])
  | .osError => .error .osError
  | .badEncoding => .error .unicodeDecodeError
  | .content s =>
    match jsonLoads s with
    | none => .ok (.arr [])
    | some v => .ok v

/-- View a JSON value as the list of strings the script's state file is
documented to hold. -/
def asStrings : List JsonVal → Option (List String)
  | [] => some []
  | .str s :: rest => (asStrings rest).map (fun l => s :: l)
  | _ => none

def asStringList : JsonVal → Option (List String)
  | .arr vs => asStrings vs
  | _ => none

/-- `get_processed_jobs` followed by the string-list view (what `main`
receives when the file is well-formed). -/
def loadedStrings (f : FileReadResult) : Option (List String) :=
  match get_processed_jobs f with
  | .ok v => asStringList v
  | .error _ => none

/-- Delete the whitespace a JSON writer is free to vary: whitespace outside
string literals.  Inside a literal every character (and every escape pair)
is kept verbatim. -/
def stripJsonWs : Bool → List Char → List Char
  | _, [] => []
  | true, c :: rest =>
    if c = '\\' then
      match rest with
      | d :: rest2 => c :: d :: stripJsonWs true rest2
      | [] => [c]
    else if c = '"' then c :: stripJsonWs false rest
    else c :: stripJsonWs true rest
  | false, c :: rest =>
    if jsonWsChar c then stripJsonWs false rest
    else if c = '"' then c :: stripJsonWs true rest
    else c :: stripJsonWs false rest

/-! ## Eligibility classifier: `analyze_with_gemini` (`scraper.py` lines 25-54)

The record built per link (`scraper.py` lines 135-140). -/

structure JobDetails where
  title : String
  company : String
  details : String
  link : String
deriving DecidableEq

/-- What the `requests.post(...)` call in `analyze_with_gemini` produced:

* `reqException` — `requests.post` or `response.raise_for_status()` raised
  a `requests.exceptions.RequestException` (connection error, timeout, or
  a non-2xx HTTP status);
* `invalidJson` — transport-level success but `response.json()` could not
  decode the body.  Since requests 2.27, `Response.json()` raises
  `requests.exceptions.JSONDecodeError`, which subclasses
  `InvalidJSONError` and hence `RequestException`, so the script's
  `except requests.exceptions.RequestException` clause catches it;
* `body j` — transport-level success with the body decoded to JSON `j`. -/
inductive GeminiResponse where
  | reqException
  | invalidJson
  | body (j : JsonVal)

/-- Python `dict.get(key, default)` on a JSON value; on a non-dict value
the attribute lookup `.get` itself raises `AttributeError`.  Python dicts
keep the last binding of a repeated key. -/
def pyGet (v : JsonVal) (key : String) (default : JsonVal) : Except PyErr JsonVal :=
  match v with
  | .obj fields =>
    match fields.reverse.find? (fun kv => kv.1 == key) with
    | some kv => .ok kv.2
    | none => .ok default
  | _ => .error .attributeError

/-- Python `v[i]` for a natural index: list indexing (`IndexError` when out
of range), string indexing (a one-character string), `KeyError` for a dict
missing the integer key, `TypeError` otherwise. -/
def pyIndex (v : JsonVal) (i : Nat) : Except PyErr JsonVal :=
  match v with
  | .arr xs =>
    match xs.get? i with
    | some x => .ok x
    | none => .error .indexError
  | .str s =>
    match s.data.get? i with
    | some c => .ok (.str (String.mk [c]))
    | none => .error .indexError
  | .obj _ => .error .keyError
  | _ => .error .typeError

/-- Python `.upper()` on a JSON value: only strings have the method. -/
def pyUpperVal : JsonVal → Except PyErr String
  | .str s => .ok (pyStrUpper s)
  | _ => .error .attributeError

/-- The extraction chain of `analyze_with_gemini` (`scraper.py` line 49):
`result.get('candidates', [{}])[0].get('content', {}).get('parts', [{}])[0].get('text', '')`. -/
def extractText (result : JsonVal) : Except PyErr JsonVal := do
  let cands ← pyGet result "candidates" (.arr [.obj []])
  let c0 ← pyIndex cands 0
  let content ← pyGet c0 "content" (.obj [])
  let parts ← pyGet content "parts" (.arr [.obj []])
  let p0 ← pyIndex parts 0
  pyGet p0 "text" (.str "")

/-- The verdict computed from the model's free-text reply
(`scraper.py` line 51): `"YES" in text_response.upper()`. -/
def verdictOfReply (reply : String) : Bool :=
  pyIn "YES" (pyStrUpper reply)

set_option linter.unusedVariables false in
/-- `analyze_with_gemini(job_details, api_key)` (`scraper.py` lines 25-54),
given the observed HTTP outcome.  The prompt built from `job_details`
(title, source, first 2000 characters of the details) only influences which
response the service sends, so it lives in the oracle, not here.  The
`try` block catches exactly `requests.exceptions.RequestException` and
returns `False` for it; any other exception escapes. -/
def analyze_with_gemini (jd : JobDetails) (resp : GeminiResponse) : Except PyErr Bool :=
  match resp with
  | .reqException => .ok false
  | .invalidJson => .ok false
  | .body result =>
    match (do
        let t ← extractText result
        pyUpperVal t : Except PyErr String) with
    | .error e => .error e
    | .ok up => .ok (pyIn "YES" up)

/-- A well-formed classifier response whose reply text is `reply`:
`{"candidates": [{"content": {"parts": [{"text": reply}]}}]}`. -/
def mkReplyBody (reply : String) : JsonVal :=
  .obj [("candidates", .arr [.obj [("content",
    .obj [("parts", .arr [.obj [("text", .str reply)]])])]])]

theorem analyze_mkReplyBody (jd : JobDetails) (reply : String) :
    analyze_with_gemini jd (.body (mkReplyBody reply)) =
      .ok (verdictOfReply reply) := rfl

/-! ## Orchestrator: `main` (`scraper.py` lines 86-161)

The externally visible actions of one run, in program order. -/

inductive Event where
  | fetch (url : String)
  | classifyEv (url : String)
  | notifyJob (link : String)
  | notifyStatus
  | save (jobs : List String)
deriving DecidableEq

/-- The oracles standing for the network: `decode href` is the destination
URL recovered by `parse_qs(urlparse(href).query).get('q', [None])[0]`
(`none` when there is no `q` parameter); `hostname` is
`urlparse(link).hostname`; `page link` is the fetched page's title and
whitespace-flattened body text (`none` when `requests.get` or the HTML
processing raises); `gemini link` is the classifier service's response for
the link's record. -/
structure RunEnv where
  decode : String → Option String
  hostname : String → String
  page : String → Option (String × String)
  gemini : String → GeminiResponse

/-- The Search Client filter (`scraper.py` lines 112-118): keep an anchor's
decoded destination iff the href starts with `/url?q=`, the destination is
nonempty (Python truthiness of `url`), does not contain `'google.com'`,
and is not already in `processed_jobs`.  Output preserves document order. -/
def extractLinks (decode : String → Option String) (processed : List String)
    (hrefs : List String) : List String :=
  hrefs.filterMap (fun href =>
    if pyStartswith href "/url?q=" then
      match decode href with
      | some url =>
        if url ≠ "" ∧ pyIn "google.com" url = false ∧ url ∉ processed then
          some url
        else none
      | none => none
    else none)

/-- One iteration of the per-link loop (`scraper.py` lines 128-147): the
`try` block fetches the page, builds `job_details`, classifies, and on a
`True` verdict notifies and accepts the link; `except Exception` swallows
any failure for this link.  Returns the events emitted and the link's
contribution to `new_jobs_found`. -/
def processLink (env : RunEnv) (link : String) : List Event × Option String :=
  match env.page link with
  | none => ([Event.fetch link], none)
  | some td =>
    let jd : JobDetails :=
      { title := td.1, company := env.hostname link, details := td.2, link := link }
    match analyze_with_gemini jd (env.gemini link) with
    | .error _ => ([Event.fetch link, Event.classifyEv link], none)
    | .ok true =>
      ([Event.fetch link, Event.classifyEv link, Event.notifyJob jd.link], some link)
    | .ok false => ([Event.fetch link, Event.classifyEv link], none)

/-- The whole per-link loop, in candidate order. -/
def processLinks (env : RunEnv) : List String → List Event × List String
  | [] => ([], [])
  | l :: ls =>
    let r := processLink env l
    let rs := processLinks env ls
    (r.1 ++ rs.1, r.2.toList ++ rs.2)

/-- `main` after a successful configuration check and search request
(`scraper.py` lines 99-161): filter the anchors, run the loop, then either
persist `processed_jobs + new_jobs_found` or send the single status
notification (`scraper.py` lines 149-161).  `processed` is the loaded
pre-run state, `hrefs` the anchor targets found in the search response. -/
def runMain (env : RunEnv) (processed : List String) (hrefs : List String) :
    List Event :=
  let links := extractLinks env.decode processed hrefs
  let r := processLinks env links
  if r.2.isEmpty then r.1 ++ [Event.notifyStatus]
  else r.1 ++ [Event.save (processed ++ r.2)]

/-- Occurrences of one event in a trace. -/
def countEvent (e : Event) (l : List Event) : Nat :=
  l.countP (fun x => decide (x = e))

/-! ## Helper lemmas about the run model -/

theorem extractLinks_spec {decode : String → Option String}
    {processed hrefs : List String} {u : String}
    (hu : u ∈ extractLinks decode processed hrefs) :
    pyIn "google.com" u = false ∧ u ∉ processed := by
  simp only [extractLinks, List.mem_filterMap] at hu
  obtain ⟨href, _, hf⟩ := hu
  by_cases hs : pyStartswith href "/url?q=" = true
  · rw [if_pos hs] at hf
    cases hd : decode href with
    | none => rw [hd] at hf; exact absurd hf (by simp)
    | some url =>
      rw [hd] at hf
      replace hf : (if url ≠ "" ∧ pyIn "google.com" url = false ∧ url ∉ processed
          then some url else none) = some u := hf
      by_cases hc : url ≠ "" ∧ pyIn "google.com" url = false ∧ url ∉ processed
      · rw [if_pos hc] at hf
        obtain rfl : url = u := by simpa using hf
        exact ⟨hc.2.1, hc.2.2⟩
      · rw [if_neg hc] at hf; exact absurd hf (by simp)
  · rw [if_neg hs] at hf; exact absurd hf (by simp)

theorem processLink_fst_cases (env : RunEnv) (l : String) :
    (processLink env l).1 = [Event.fetch l] ∨
    (processLink env l).1 = [Event.fetch l, Event.classifyEv l] ∨
    (processLink env l).1 = [Event.fetch l, Event.classifyEv l, Event.notifyJob l] := by
  unfold processLink
  cases env.page l with
  | none => simp
  | some td => dsimp only; split <;> simp

theorem processLink_snd_cases (env : RunEnv) (l : String) :
    (processLink env l).2 = none ∨ (processLink env l).2 = some l := by
  unfold processLink
  cases env.page l with
  | none => simp
  | some td => dsimp only; split <;> simp

theorem fetch_mem_processLink (env : RunEnv) (l : String) :
    Event.fetch l ∈ (processLink env l).1 := by
  rcases processLink_fst_cases env l with h | h | h <;> rw [h] <;> simp

theorem classify_mem_processLink (env : RunEnv) (l : String) {td : String × String}
    (hp : env.page l = some td) :
    Event.classifyEv l ∈ (processLink env l).1 := by
  unfold processLink
  rw [hp]
  dsimp only
  split <;> simp

theorem mem_processLink_fst {env : RunEnv} {l : String} {e : Event}
    (he : e ∈ (processLink env l).1) :
    e = Event.fetch l ∨ e = Event.classifyEv l ∨ e = Event.notifyJob l := by
  rcases processLink_fst_cases env l with h | h | h <;> rw [h] at he <;>
    simp only [List.mem_cons, List.not_mem_nil, or_false] at he <;> tauto

theorem processLinks_fst_cons (env : RunEnv) (l : String) (ls : List String) :
    (processLinks env (l :: ls)).1 =
      (processLink env l).1 ++ (processLinks env ls).1 := rfl

theorem processLinks_snd_cons (env : RunEnv) (l : String) (ls : List String) :
    (processLinks env (l :: ls)).2 =
      (processLink env l).2.toList ++ (processLinks env ls).2 := rfl

theorem mem_processLinks_fst {env : RunEnv} {ls : List String} {e : Event}
    (he : e ∈ (processLinks env ls).1) :
    ∃ l ∈ ls, e ∈ (processLink env l).1 := by
  induction ls with
  | nil => simp [processLinks] at he
  | cons l ls ih =>
    rw [processLinks_fst_cons, List.mem_append] at he
    rcases he with h | h
    · exact ⟨l, by simp, h⟩
    · obtain ⟨l2, hl2, h2⟩ := ih h
      exact ⟨l2, by simp [hl2], h2⟩

theorem mem_processLinks_of_mem {env : RunEnv} {ls : List String} {l : String}
    {e : Event} (hl : l ∈ ls) (he : e ∈ (processLink env l).1) :
    e ∈ (processLinks env ls).1 := by
  induction ls with
  | nil => cases hl
  | cons l2 ls ih =>
    rw [processLinks_fst_cons, List.mem_append]
    rcases List.mem_cons.mp hl with rfl | h
    · exact Or.inl he
    · exact Or.inr (ih h)

theorem fetch_mem_processLinks_imp {env : RunEnv} {ls : List String} {u : String}
    (h : Event.fetch u ∈ (processLinks env ls).1) : u ∈ ls := by
  obtain ⟨l, hl, he⟩ := mem_processLinks_fst h
  rcases mem_processLink_fst he with h2 | h2 | h2 <;> simp_all

theorem classify_mem_processLinks_imp {env : RunEnv} {ls : List String}
    {u : String} (h : Event.classifyEv u ∈ (processLinks env ls).1) : u ∈ ls := by
  obtain ⟨l, hl, he⟩ := mem_processLinks_fst h
  rcases mem_processLink_fst he with h2 | h2 | h2 <;> simp_all

theorem notifyStatus_not_mem_processLinks (env : RunEnv) (ls : List String) :
    Event.notifyStatus ∉ (processLinks env ls).1 := by
  intro h
  obtain ⟨l, _, he⟩ := mem_processLinks_fst h
  rcases mem_processLink_fst he with h2 | h2 | h2 <;> cases h2

theorem save_not_mem_processLinks (env : RunEnv) (ls : List String)
    (xs : List String) : Event.save xs ∉ (processLinks env ls).1 := by
  intro h
  obtain ⟨l, _, he⟩ := mem_processLinks_fst h
  rcases mem_processLink_fst he with h2 | h2 | h2 <;> cases h2

theorem processLinks_snd_eq_filter (env : RunEnv) (ls : List String) :
    (processLinks env ls).2 = ls.filter (fun l => ((processLink env l).2).isSome) := by
  induction ls with
  | nil => rfl
  | cons l ls ih =>
    rw [processLinks_snd_cons, ih]
    rcases processLink_snd_cases env l with h | h <;>
      simp [h, List.filter_cons]

theorem countEvent_append (e : Event) (l1 l2 : List Event) :
    countEvent e (l1 ++ l2) = countEvent e l1 + countEvent e l2 :=
  List.countP_append _ _ _

theorem countEvent_eq_zero {e : Event} {l : List Event} (h : e ∉ l) :
    countEvent e l = 0 := by
  rw [countEvent, List.countP_eq_zero]
  intro a ha
  simp only [decide_eq_true_eq]
  rintro rfl
  exact h ha

theorem countEvent_singleton (e : Event) : countEvent e [e] = 1 := by
  simp [countEvent]

theorem mem_runMain {env : RunEnv} {processed hrefs : List String} {e : Event}
    (he : e ∈ runMain env processed hrefs) :
    e ∈ (processLinks env (extractLinks env.decode processed hrefs)).1 ∨
      e = Event.notifyStatus ∨
      e = Event.save
        (processed ++ (processLinks env (extractLinks env.decode processed hrefs)).2) := by
  simp only [runMain] at he
  split at he
  · rcases List.mem_append.mp he with h | h
    · exact Or.inl h
    · exact Or.inr (Or.inl (by simpa using h))
  · rcases List.mem_append.mp he with h | h
    · exact Or.inl h
    · exact Or.inr (Or.inr (by simpa using h))

/-- `linkFails env l`: processing link `l` raises inside the per-link `try`
block — either the fetch/HTML step raises, or `analyze_with_gemini` lets an
exception escape. -/
def linkFails (env : RunEnv) (l : String) : Prop :=
  env.page l = none ∨
  ∃ t d e, env.page l = some (t, d) ∧
    analyze_with_gemini
      { title := t, company := env.hostname l, details := d, link := l }
      (env.gemini l) = Except.error e

/-! ## Concrete environments used to witness the claims -/

/-- Accepts everything: every page fetch succeeds and the classifier
replies affirmatively. -/
def envAcceptAll : RunEnv :=
  ⟨fun _ => some "https://b.com/job2", fun _ => "b.com",
   fun _ => some ("T", "D"), fun _ => .body (mkReplyBody "YES, this matches")⟩

/-- Rejects everything: every fetch succeeds, the classifier replies `NO`. -/
def envRejectAll : RunEnv :=
  ⟨fun _ => some "https://b.com/job2", fun _ => "b.com",
   fun _ => some ("T", "D"), fun _ => .body (mkReplyBody "NO")⟩

/-- Fetch always fails. -/
def envFetchFail : RunEnv :=
  ⟨fun _ => none, fun _ => "", fun _ => none, fun _ => .reqException⟩

/-- The classifier reply is lowercase `yes` with surrounding text. -/
def envLowerYes : RunEnv :=
  ⟨fun _ => none, fun _ => "b.com", fun _ => some ("T", "D"),
   fun _ => .body (mkReplyBody "yes, this matches")⟩

/-- The classifier transport always fails. -/
def envReqErr : RunEnv :=
  ⟨fun _ => none, fun _ => "", fun _ => some ("T", "D"), fun _ => .reqException⟩

/-- Fetch of one specific link fails, everything else succeeds. -/
def envC7 : RunEnv :=
  ⟨fun _ => none, fun _ => "h",
   fun l => if l = "https://a.com/x" then none else some ("T", "D"),
   fun _ => .body (mkReplyBody "NO")⟩

/-- Every anchor decodes to the same destination and is accepted. -/
def envC8 : RunEnv :=
  ⟨fun _ => some "https://x.com/j", fun _ => "x.com",
   fun _ => some ("T", "D"), fun _ => .body (mkReplyBody "YES")⟩

/-- The classifier's 200-response carries an empty `candidates` list. -/
def envEmptyCands : RunEnv :=
  ⟨fun _ => none, fun _ => "x.com", fun _ => some ("T", "D"),
   fun _ => .body (.obj [("candidates", .arr [])])⟩

/-- The witness decoder for the search filter. -/
def decodeW : String → Option String := fun href =>
  if href = "/url?q=https://a.com/job1" then some "https://a.com/job1"
  else if href = "/url?q=https://b.com/job2" then some "https://b.com/job2"
  else none

/-! ## The claims -/

/-- C1: the classifier verdict is true iff the uppercased reply contains
"YES"; a reply of exactly "NO" never triggers `notify_job` for the
candidate, and a reply containing "YES" in any case with any surrounding
text does trigger it. -/
theorem C1_classifier_verdict (env : RunEnv) (links : List String)
    (link title detail reply : String)
    (hp : env.page link = some (title, detail))
    (hg : env.gemini link = GeminiResponse.body (mkReplyBody reply)) :
    (Event.notifyJob link ∈ (processLink env link).1 ↔
      pyIn "YES" (pyStrUpper reply) = true)
    ∧ (reply = "NO" → Event.notifyJob link ∉ (processLink env link).1 ∧
        (processLink env link).2 = none)
    ∧ (∀ a v b, reply = a ++ v ++ b → pyStrUpper v = "YES" →
        link ∈ links → Event.notifyJob link ∈ (processLinks env links).1) := by
  have hpl : processLink env link =
      (if verdictOfReply reply = true then
        ([Event.fetch link, Event.classifyEv link, Event.notifyJob link], some link)
      else ([Event.fetch link, Event.classifyEv link], none)) := by
    unfold processLink
    rw [hp]
    dsimp only
    rw [hg, analyze_mkReplyBody]
    cases hv : verdictOfReply reply <;> simp [hv]
  have hmem_iff : Event.notifyJob link ∈ (processLink env link).1 ↔
      verdictOfReply reply = true := by
    rw [hpl]
    cases hv : verdictOfReply reply
    · simp [hv]
    · simp [hv]
  refine ⟨hmem_iff, fun hno => ?_, fun a v b hsplit hupper hmem => ?_⟩
  · subst hno
    have hv : verdictOfReply "NO" = false := by decide
    rw [hpl, if_neg (by simp [hv])]
    simp
  · have hv : verdictOfReply reply = true := by
      rw [verdictOfReply, hsplit, pyStrUpper_append, pyStrUpper_append, hupper]
      unfold pyIn
      rw [string_data_append, string_data_append]
      exact hasSubL_sandwich _ _ _
    exact mem_processLinks_of_mem hmem (hmem_iff.mpr hv)

theorem C1_witness :
    Event.notifyJob "https://b.com/job2" ∈
      (processLinks envLowerYes ["https://b.com/job2"]).1 ∧
    Event.notifyJob "https://b.com/job2" ∉
      (processLink envRejectAll "https://b.com/job2").1 := by
  constructor
  · exact (C1_classifier_verdict envLowerYes ["https://b.com/job2"]
      "https://b.com/job2" "T" "D" "yes, this matches" rfl rfl).2.2
      "" "yes" ", this matches" (by decide) (by decide) (by decide)
  · exact ((C1_classifier_verdict envRejectAll [] "https://b.com/job2"
      "T" "D" "NO" rfl rfl).2.1 rfl).1

/-- C2: at Finalizing, a run with at least one accepted link saves exactly
once, saving the pre-run state with the accepted links appended (for one
accepted link, exactly that link appended once), and sends no status
notification; a run with no accepted link sends exactly one status
notification and never saves. -/
theorem C2_finalizing (env : RunEnv) (processed hrefs : List String) :
    ((processLinks env (extractLinks env.decode processed hrefs)).2 ≠ [] →
      countEvent
        (Event.save (processed ++
          (processLinks env (extractLinks env.decode processed hrefs)).2))
        (runMain env processed hrefs) = 1 ∧
      (∀ xs, Event.save xs ∈ runMain env processed hrefs →
        xs = processed ++
          (processLinks env (extractLinks env.decode processed hrefs)).2) ∧
      Event.notifyStatus ∉ runMain env processed hrefs ∧
      (∀ l, (processLinks env (extractLinks env.decode processed hrefs)).2 = [l] →
        Event.save (processed ++ [l]) ∈ runMain env processed hrefs))
    ∧ ((processLinks env (extractLinks env.decode processed hrefs)).2 = [] →
      countEvent Event.notifyStatus (runMain env processed hrefs) = 1 ∧
      ∀ xs, Event.save xs ∉ runMain env processed hrefs) := by
  set links := extractLinks env.decode processed hrefs with hlinks
  set r2 := (processLinks env links).2 with hr2
  set evs1 := (processLinks env links).1 with hevs1
  constructor
  · intro hne
    have hrun : runMain env processed hrefs = evs1 ++ [Event.save (processed ++ r2)] := by
      simp only [runMain, ← hlinks, ← hr2, ← hevs1]
      rw [if_neg (by simpa [List.isEmpty_iff] using hne)]
    refine ⟨?_, ?_, ?_, ?_⟩
    · rw [hrun, countEvent_append,
        countEvent_eq_zero (save_not_mem_processLinks env links _),
        countEvent_singleton]
    · intro xs hxs
      rw [hrun] at hxs
      rcases List.mem_append.mp hxs with h | h
      · exact absurd h (save_not_mem_processLinks env links xs)
      · have := List.mem_singleton.mp h
        exact (Event.save.injEq _ _).mp this.symm |>.symm
    · rw [hrun]
      intro hmem
      rcases List.mem_append.mp hmem with h | h
      · exact notifyStatus_not_mem_processLinks env links h
      · simp at h
    · intro l hl
      rw [hrun, hl]
      simp
  · intro he
    have hrun : runMain env processed hrefs = evs1 ++ [Event.notifyStatus] := by
      simp only [runMain, ← hlinks, ← hr2, ← hevs1]
      rw [if_pos (by simp [List.isEmpty_iff, he])]
    refine ⟨?_, ?_⟩
    · rw [hrun, countEvent_append,
        countEvent_eq_zero (notifyStatus_not_mem_processLinks env links),
        countEvent_singleton]
    · intro xs hmem
      rw [hrun] at hmem
      rcases List.mem_append.mp hmem with h | h
      · exact save_not_mem_processLinks env links xs h
      · simp at h

theorem C2_witness :
    countEvent (Event.save ["https://a.com/job1", "https://b.com/job2"])
      (runMain envAcceptAll ["https://a.com/job1"] ["/url?q=x"]) = 1 ∧
    countEvent Event.notifyStatus
      (runMain envRejectAll ["https://a.com/job1"] ["/url?q=x"]) = 1 := by
  constructor
  · have hr2 : (processLinks envAcceptAll
        (extractLinks envAcceptAll.decode ["https://a.com/job1"] ["/url?q=x"])).2 =
        ["https://b.com/job2"] := by decide
    have h := ((C2_finalizing envAcceptAll ["https://a.com/job1"] ["/url?q=x"]).1
      (by rw [hr2]; simp)).1
    rw [hr2] at h
    simpa using h
  · have hr2 : (processLinks envRejectAll
        (extractLinks envRejectAll.decode ["https://a.com/job1"] ["/url?q=x"])).2 =
        [] := by decide
    exact ((C2_finalizing envRejectAll ["https://a.com/job1"] ["/url?q=x"]).2 hr2).1

/-- C3: the candidate output never contains a URL whose host belongs to the
search provider (any host string with `google.com` inside it cannot even
occur as a substring of an output URL) and never contains a URL already in
the processed set; in particular every previously processed link is
excluded by re-running the filter. -/
theorem C3_search_filter (decode : String → Option String)
    (processed hrefs : List String) :
    (∀ u ∈ extractLinks decode processed hrefs,
      (∀ w, pyIn "google.com" w = true → pyIn w u = false) ∧ u ∉ processed)
    ∧ ∀ p ∈ processed, p ∉ extractLinks decode processed hrefs := by
  constructor
  · intro u hu
    obtain ⟨hg, hp⟩ := extractLinks_spec hu
    refine ⟨fun w hw => ?_, hp⟩
    cases hwu : pyIn w u
    · rfl
    · have := pyIn_trans hw hwu
      rw [this] at hg
      cases hg
  · intro p hp hmem
    exact (extractLinks_spec hmem).2 hp

theorem C3_witness :
    pyIn "www.google.com" "https://b.com/job2" = false ∧
    "https://b.com/job2" ∉ (["https://a.com/job1"] : List String) ∧
    "https://a.com/job1" ∉ extractLinks decodeW ["https://a.com/job1"]
      ["/url?q=https://a.com/job1", "/url?q=https://b.com/job2"] := by
  have h := C3_search_filter decodeW ["https://a.com/job1"]
    ["/url?q=https://a.com/job1", "/url?q=https://b.com/job2"]
  have hmem : "https://b.com/job2" ∈ extractLinks decodeW ["https://a.com/job1"]
      ["/url?q=https://a.com/job1", "/url?q=https://b.com/job2"] := by decide
  have h1 := h.1 _ hmem
  exact ⟨h1.1 "www.google.com" (by decide), h1.2,
    h.2 "https://a.com/job1" (by decide)⟩

/-- C4: a link already in the processed set when the run starts is never
fetched and never classified during that run. -/
theorem C4_no_refetch (env : RunEnv) (processed hrefs : List String)
    (link : String) (h : link ∈ processed) :
    Event.fetch link ∉ runMain env processed hrefs ∧
    Event.classifyEv link ∉ runMain env processed hrefs := by
  have hnot : link ∉ extractLinks env.decode processed hrefs := by
    intro hmem
    exact (extractLinks_spec hmem).2 h
  constructor
  · intro hmem
    rcases mem_runMain hmem with h2 | h2 | h2
    · exact hnot (fetch_mem_processLinks_imp h2)
    · cases h2
    · cases h2
  · intro hmem
    rcases mem_runMain hmem with h2 | h2 | h2
    · exact hnot (classify_mem_processLinks_imp h2)
    · cases h2
    · cases h2

theorem C4_witness :
    Event.fetch "https://a.com/job1" ∉
      runMain envAcceptAll ["https://a.com/job1"] ["/url?q=x"] ∧
    Event.classifyEv "https://a.com/job1" ∉
      runMain envAcceptAll ["https://a.com/job1"] ["/url?q=x"] :=
  C4_no_refetch envAcceptAll ["https://a.com/job1"] ["/url?q=x"]
    "https://a.com/job1" (by decide)

/-- C5: a transport or HTTP-level classifier failure yields the verdict
`false` without propagating an exception, so the per-link pipeline records
the classify call and accepts nothing (and raises nothing). -/
theorem C5_fail_closed (jd : JobDetails) (env : RunEnv) (link t d : String)
    (hp : env.page link = some (t, d))
    (hg : env.gemini link = GeminiResponse.reqException) :
    analyze_with_gemini jd GeminiResponse.reqException = Except.ok false ∧
    processLink env link = ([Event.fetch link, Event.classifyEv link], none) := by
  refine ⟨rfl, ?_⟩
  unfold processLink
  rw [hp]
  dsimp only
  rw [hg]
  rfl

theorem C5_witness :
    analyze_with_gemini ⟨"T", "b.com", "D", "https://b.com/job2"⟩
      GeminiResponse.reqException = Except.ok false ∧
    processLink envReqErr "https://b.com/job2" =
      ([Event.fetch "https://b.com/job2", Event.classifyEv "https://b.com/job2"],
        none) :=
  C5_fail_closed ⟨"T", "b.com", "D", "https://b.com/job2"⟩ envReqErr
    "https://b.com/job2" "T" "D" rfl rfl

/-- C7: a fetch or classify failure on link A is contained: A contributes
no accepted link and no job notification, while every candidate — in
particular any B after A — is still fetched, and classified whenever its
fetch succeeds. -/
theorem C7_per_link_isolation (env : RunEnv) (pre mid post : List String)
    (A B : String) (hfail : linkFails env A) :
    ((processLink env A).2 = none ∧ Event.notifyJob A ∉ (processLink env A).1)
    ∧ Event.fetch B ∈ (processLinks env (pre ++ A :: (mid ++ B :: post))).1
    ∧ (∀ td, env.page B = some td →
        Event.classifyEv B ∈ (processLinks env (pre ++ A :: (mid ++ B :: post))).1)
    ∧ ∀ l ∈ pre ++ A :: (mid ++ B :: post),
        Event.fetch l ∈ (processLinks env (pre ++ A :: (mid ++ B :: post))).1 := by
  have hB : B ∈ pre ++ A :: (mid ++ B :: post) := by simp
  refine ⟨?_, mem_processLinks_of_mem hB (fetch_mem_processLink env B),
    fun td hp => mem_processLinks_of_mem hB (classify_mem_processLink env B hp),
    fun l hl => mem_processLinks_of_mem hl (fetch_mem_processLink env l)⟩
  rcases hfail with hnone | ⟨t, d, e, hp, ha⟩
  · unfold processLink
    rw [hnone]
    simp
  · unfold processLink
    rw [hp]
    dsimp only
    rw [ha]
    simp

theorem C7_witness :
    (processLink envC7 "https://a.com/x").2 = none ∧
    Event.fetch "https://b.com/y" ∈
      (processLinks envC7 ["https://a.com/x", "https://b.com/y"]).1 := by
  have h := C7_per_link_isolation envC7 [] [] [] "https://a.com/x"
    "https://b.com/y" (Or.inl (by decide))
  exact ⟨h.1.1, h.2.1⟩

/-- C8 counterexample: a URL returned twice by the search page is accepted
twice and saved twice — the persisted list does contain a URL twice. -/
theorem C8_counterexample :
    Event.save ["https://x.com/j", "https://x.com/j"] ∈
      runMain envC8 [] ["/url?q=a", "/url?q=a"] ∧
    ¬ (["https://x.com/j", "https://x.com/j"] : List String).Nodup := by
  constructor
  · decide
  · decide

/-- C8 (amended): when the candidate list contains no intra-run duplicate
(and the loaded state is duplicate-free), every saved list is
duplicate-free — cross-run duplicates are indeed guarded by the
`url not in processed_jobs` check. -/
theorem C8_nodup_when_candidates_nodup (env : RunEnv)
    (processed hrefs : List String)
    (h1 : (extractLinks env.decode processed hrefs).Nodup)
    (h2 : processed.Nodup) :
    ∀ xs, Event.save xs ∈ runMain env processed hrefs → xs.Nodup := by
  intro xs hmem
  rcases mem_runMain hmem with h | h | h
  · exact absurd h (save_not_mem_processLinks _ _ _)
  · cases h
  · injection h with hxs
    subst hxs
    rw [List.nodup_append]
    refine ⟨h2, ?_, ?_⟩
    · rw [processLinks_snd_eq_filter]
      exact h1.filter _
    · intro a ha hb
      rw [processLinks_snd_eq_filter] at hb
      exact (extractLinks_spec (List.mem_of_mem_filter hb)).2 ha

theorem C8_witness : (["https://x.com/j"] : List String).Nodup :=
  C8_nodup_when_candidates_nodup envC8 [] ["/url?q=a"] (by decide) (by decide)
    ["https://x.com/j"] (by decide)

/-- C10 counterexample: a transport-successful response whose body is not
valid JSON does NOT raise out of `analyze_with_gemini` — requests'
`JSONDecodeError` subclasses `RequestException`, so the function catches it
and returns the `false` verdict. -/
theorem C10_counterexample :
    analyze_with_gemini ⟨"T", "x.com", "D", "https://x.com/j"⟩
      GeminiResponse.invalidJson = Except.ok false := rfl

/-- C10 (amended): an undecodable body is converted to the `false` verdict
exactly like a transport error, while a decodable body with an empty
`candidates` list raises `IndexError` out of `analyze_with_gemini`; that
exception is caught only by the per-link handler, which skips the link and
accepts nothing. -/
theorem C10_parse_errors (jd : JobDetails) (env : RunEnv) (link t d : String)
    (hp : env.page link = some (t, d))
    (hg : env.gemini link = GeminiResponse.body (.obj [("candidates", .arr [])])) :
    analyze_with_gemini jd GeminiResponse.invalidJson = Except.ok false ∧
    analyze_with_gemini jd (GeminiResponse.body (.obj [("candidates", .arr [])])) =
      Except.error PyErr.indexError ∧
    processLink env link = ([Event.fetch link, Event.classifyEv link], none) := by
  refine ⟨rfl, rfl, ?_⟩
  unfold processLink
  rw [hp]
  dsimp only
  rw [hg]
  rfl

theorem C10_witness :
    processLink envEmptyCands "https://x.com/j" =
      ([Event.fetch "https://x.com/j", Event.classifyEv "https://x.com/j"],
        none) :=
  (C10_parse_errors ⟨"T", "x.com", "D", "https://x.com/j"⟩ envEmptyCands
    "https://x.com/j" "T" "D" rfl rfl).2.2

/-- C6 counterexample: an unreadable backing file (e.g. `PermissionError`
from `open`) is not caught by `except (FileNotFoundError,
json.JSONDecodeError)` — `load()` raises to its caller. -/
theorem C6_counterexample :
    get_processed_jobs FileReadResult.osError = Except.error PyErr.osError := rfl

/-- C6 (amended): `load()` returns the empty list when the file is missing
or its text fails to decode as JSON, and returns the decoded value when it
does decode; but an OS-level read failure other than file-not-found, or a
non-UTF-8 file, raises to the caller. -/
theorem C6_load_behaviour :
    get_processed_jobs FileReadResult.fileNotFound = Except.ok (JsonVal.arr [])
    ∧ (∀ s, jsonLoads s = none →
        get_processed_jobs (FileReadResult.content s) = Except.ok (JsonVal.arr []))
    ∧ (∀ s v, jsonLoads s = some v →
        get_processed_jobs (FileReadResult.content s) = Except.ok v)
    ∧ get_processed_jobs FileReadResult.osError = Except.error PyErr.osError
    ∧ get_processed_jobs FileReadResult.badEncoding =
        Except.error PyErr.unicodeDecodeError := by
  have hc : ∀ s, get_processed_jobs (FileReadResult.content s) =
      (match jsonLoads s with
        | none => Except.ok (JsonVal.arr [])
        | some v => Except.ok v) := fun _ => rfl
  refine ⟨rfl, fun s hs => ?_, fun s v hv => ?_, rfl, rfl⟩
  · rw [hc, hs]
  · rw [hc, hv]

/-! ## Round-trip machinery for C9

`simpleChar` carves out the characters whose canonical JSON escape is not a
`\uXXXX` sequence: printable ASCII plus the five controls with dedicated
short escapes.  `save` output built from such strings parses back exactly. -/

def simpleChar (c : Char) : Bool :=
  (decide (32 ≤ c.toNat) && decide (c.toNat ≤ 126)) ||
    c = '\n' || c = '\t' || c = '\r' || c = '\x08' || c = '\x0c'

theorem string_mk_data (s : String) : String.mk s.data = s := rfl

theorem escCharL_plain {c : Char} (h32 : 32 ≤ c.toNat) (h126 : c.toNat ≤ 126)
    (hq : c ≠ '"') (hb : c ≠ '\\') : escCharL c = [c] := by
  have hn : c ≠ '\n' := fun he => absurd (he ▸ h32) (by decide)
  have ht : c ≠ '\t' := fun he => absurd (he ▸ h32) (by decide)
  have hr : c ≠ '\r' := fun he => absurd (he ▸ h32) (by decide)
  have h8 : c ≠ '\x08' := fun he => absurd (he ▸ h32) (by decide)
  have h12 : c ≠ '\x0c' := fun he => absurd (he ▸ h32) (by decide)
  simp only [escCharL, if_neg hq, if_neg hb, if_neg hn, if_neg ht, if_neg hr,
    if_neg h8, if_neg h12,
    if_neg (by omega : ¬(c.toNat < 32 ∨ 126 < c.toNat))]

theorem parseStrContent_quote (rest : List Char) :
    parseStrContent ('"' :: rest) = some ([], rest) := by
  rw [parseStrContent.eq_def]
  simp

theorem parseStrContent_esc (e c2 : Char) (he : escMap e = some c2)
    (hu : e ≠ 'u') (T : List Char) :
    parseStrContent ('\\' :: e :: T) =
      (parseStrContent T).map (fun p => (c2 :: p.1, p.2)) := by
  rw [parseStrContent.eq_def]
  simp [hu, he]

theorem parseStrContent_plain {c : Char} (h32 : 32 ≤ c.toNat)
    (hq : c ≠ '"') (hb : c ≠ '\\') (t : List Char) :
    parseStrContent (c :: t) =
      (parseStrContent t).map (fun p => (c :: p.1, p.2)) := by
  have h1 : ¬(c.toNat < 32) := by omega
  rw [parseStrContent.eq_def]
  simp [hq, hb, h1]

theorem parseStrContent_escBody (s : List Char)
    (h : ∀ c ∈ s, simpleChar c = true) (rest : List Char) :
    parseStrContent (s.flatMap escCharL ++ ('"' :: rest)) = some (s, rest) := by
  induction s with
  | nil => simp [parseStrContent_quote]
  | cons c cs ih =>
    have hc : simpleChar c = true := h c (by simp)
    have ih2 := ih (fun x hx => h x (by simp [hx]))
    rw [List.flatMap_cons, List.append_assoc]
    simp only [simpleChar, Bool.or_eq_true, Bool.and_eq_true,
      decide_eq_true_eq] at hc
    rcases hc with ((((⟨h32, h126⟩ | rfl) | rfl) | rfl) | rfl) | rfl
    · by_cases hq : c = '"'
      · subst hq
        rw [show escCharL '"' ++ (cs.flatMap escCharL ++ ('"' :: rest)) =
          '\\' :: '"' :: (cs.flatMap escCharL ++ ('"' :: rest)) from rfl,
          parseStrContent_esc '"' '"' (by decide) (by decide), ih2]
        rfl
      · by_cases hb : c = '\\'
        · subst hb
          rw [show escCharL '\\' ++ (cs.flatMap escCharL ++ ('"' :: rest)) =
            '\\' :: '\\' :: (cs.flatMap escCharL ++ ('"' :: rest)) from rfl,
            parseStrContent_esc '\\' '\\' (by decide) (by decide), ih2]
          rfl
        · rw [escCharL_plain h32 h126 hq hb, List.singleton_append,
            parseStrContent_plain h32 hq hb, ih2]
          rfl
    · rw [show escCharL '\n' ++ (cs.flatMap escCharL ++ ('"' :: rest)) =
        '\\' :: 'n' :: (cs.flatMap escCharL ++ ('"' :: rest)) from rfl,
        parseStrContent_esc 'n' '\n' (by decide) (by decide), ih2]
      rfl
    · rw [show escCharL '\t' ++ (cs.flatMap escCharL ++ ('"' :: rest)) =
        '\\' :: 't' :: (cs.flatMap escCharL ++ ('"' :: rest)) from rfl,
        parseStrContent_esc 't' '\t' (by decide) (by decide), ih2]
      rfl
    · rw [show escCharL '\r' ++ (cs.flatMap escCharL ++ ('"' :: rest)) =
        '\\' :: 'r' :: (cs.flatMap escCharL ++ ('"' :: rest)) from rfl,
        parseStrContent_esc 'r' '\r' (by decide) (by decide), ih2]
      rfl
    · rw [show escCharL '\x08' ++ (cs.flatMap escCharL ++ ('"' :: rest)) =
        '\\' :: 'b' :: (cs.flatMap escCharL ++ ('"' :: rest)) from rfl,
        parseStrContent_esc 'b' '\x08' (by decide) (by decide), ih2]
      rfl
    · rw [show escCharL '\x0c' ++ (cs.flatMap escCharL ++ ('"' :: rest)) =
        '\\' :: 'f' :: (cs.flatMap escCharL ++ ('"' :: rest)) from rfl,
        parseStrContent_esc 'f' '\x0c' (by decide) (by decide), ih2]
      rfl

theorem parseVal_string (f : Nat) (rest : List Char) :
    parseVal (f + 1) ('"' :: rest) =
      (parseStrContent rest).map (fun p => (JsonVal.str (String.mk p.1), p.2)) := rfl

theorem parseArrElems_succ (fuel : Nat) (cs : List Char) :
    parseArrElems (fuel + 1) cs =
      (match parseVal fuel cs with
        | none => none
        | some (v, rest) =>
          match skipWs rest with
          | ',' :: rest2 => (parseArrElems fuel rest2).map (fun p => (v :: p.1, p.2))
          | ']' :: rest2 => some ([v], rest2)
          | _ => none) := rfl

theorem parseArrElems_single (f : Nat) (T s rest : List Char)
    (hp : parseStrContent T = some (s, '\n' :: ']' :: rest)) :
    parseArrElems (f + 1 + 1) ('"' :: T) =
      some ([JsonVal.str (String.mk s)], rest) := by
  rw [parseArrElems_succ, parseVal_string, hp]
  rfl

theorem parseArrElems_more (f : Nat) (T s rest2 : List Char)
    (hp : parseStrContent T = some (s, ',' :: '\n' :: ' ' :: ' ' :: rest2)) :
    parseArrElems (f + 1 + 1) ('"' :: T) =
      (parseArrElems (f + 1) ('\n' :: ' ' :: ' ' :: rest2)).map
        (fun p => (JsonVal.str (String.mk s) :: p.1, p.2)) := by
  rw [parseArrElems_succ, parseVal_string, hp]
  rfl

theorem parseVal_cons_ws (f : Nat) (c : Char) (cs : List Char) :
    parseVal f ('\n' :: ' ' :: ' ' :: c :: cs) = parseVal f (c :: cs) := by
  cases f with
  | zero => rfl
  | succ g => rfl

theorem parseArrElems_cons_ws (f : Nat) (c : Char) (cs : List Char) :
    parseArrElems f ('\n' :: ' ' :: ' ' :: c :: cs) = parseArrElems f (c :: cs) := by
  cases f with
  | zero => rfl
  | succ g =>
    rw [parseArrElems_succ, parseArrElems_succ, parseVal_cons_ws g c cs]

theorem parseVal_lbracket_ws3_quote (f : Nat) (T : List Char) :
    parseVal (f + 1) ('[' :: '\n' :: ' ' :: ' ' :: '"' :: T) =
      (parseArrElems f ('"' :: T)).map (fun p => (JsonVal.arr p.1, p.2)) := rfl

theorem joinSep_cons (x : List Char) (rest : List (List Char)) :
    ∃ t, joinSep (x :: rest) = x ++ t := by
  cases rest with
  | nil => exact ⟨[], by simp [joinSep]⟩
  | cons y r => exact ⟨sepL ++ joinSep (y :: r), by simp [joinSep, List.append_assoc]⟩

theorem joinSep_dump_head (s : String) (ss : List String) (close : List Char) :
    ∃ T, joinSep ((s :: ss).map dumpStrOf) ++ close = '"' :: T := by
  obtain ⟨t, ht⟩ := joinSep_cons (dumpStrOf s) (ss.map dumpStrOf)
  refine ⟨(s.data.flatMap escCharL ++ ['"']) ++ t ++ close, ?_⟩
  rw [List.map_cons, ht]
  simp [dumpStrOf, dumpStrL, List.append_assoc]

theorem joinSep_cons2 (x y : List Char) (r : List (List Char)) :
    joinSep (x :: y :: r) = x ++ sepL ++ joinSep (y :: r) := by
  simp [joinSep]

theorem joinSep_dump_length (ss : List String) :
    2 * ss.length ≤ (joinSep (ss.map dumpStrOf)).length := by
  match ss with
  | [] => simp [joinSep]
  | [s] =>
    simp only [List.map_cons, List.map_nil, List.length_cons, List.length_nil]
    rw [show joinSep [dumpStrOf s] = dumpStrOf s from by simp [joinSep]]
    simp [dumpStrOf, dumpStrL]
  | s :: s2 :: ss2 =>
    have ih := joinSep_dump_length (s2 :: ss2)
    have hd : 2 ≤ (dumpStrOf s).length := by simp [dumpStrOf, dumpStrL]
    rw [List.map_cons, List.map_cons, joinSep_cons2, ← List.map_cons]
    simp only [List.length_cons, List.length_append] at ih ⊢
    have hsep : sepL.length = 4 := rfl
    omega

theorem parseArrElems_round : ∀ (ss : List String) (fuel : Nat) (rest : List Char),
    (∀ s ∈ ss, ∀ c ∈ s.data, simpleChar c = true) → ss ≠ [] →
    ss.length + 1 ≤ fuel →
    parseArrElems fuel (joinSep (ss.map dumpStrOf) ++ ('\n' :: ']' :: rest)) =
      some (ss.map JsonVal.str, rest)
  | [], _, _, _, hne, _ => absurd rfl hne
  | s :: ss, fuel, rest, hsimple, _, hfuel => by
    simp only [List.length_cons] at hfuel
    obtain ⟨g, rfl⟩ : ∃ g, fuel = g + 1 + 1 := ⟨fuel - 2, by omega⟩
    cases ss with
    | nil =>
      have hA := parseStrContent_escBody s.data (hsimple s (by simp))
        ('\n' :: ']' :: rest)
      rw [List.map_cons, List.map_nil,
        show joinSep [dumpStrOf s] = dumpStrOf s from by simp [joinSep],
        show dumpStrOf s ++ ('\n' :: ']' :: rest) =
          '"' :: (s.data.flatMap escCharL ++ ('"' :: ('\n' :: ']' :: rest))) from by
            simp [dumpStrOf, dumpStrL],
        parseArrElems_single g _ _ _ hA, string_mk_data]
      rfl
    | cons s2 ss2 =>
      have hA := parseStrContent_escBody s.data (hsimple s (by simp))
        (',' :: '\n' :: ' ' :: ' ' ::
          (joinSep ((s2 :: ss2).map dumpStrOf) ++ ('\n' :: ']' :: rest)))
      rw [show joinSep ((s :: s2 :: ss2).map dumpStrOf) ++ ('\n' :: ']' :: rest) =
          '"' :: (s.data.flatMap escCharL ++ ('"' :: (',' :: '\n' :: ' ' :: ' ' ::
            (joinSep ((s2 :: ss2).map dumpStrOf) ++ ('\n' :: ']' :: rest)))))
          from by
        rw [List.map_cons, List.map_cons, joinSep_cons2, ← List.map_cons]
        simp [dumpStrOf, dumpStrL, sepL, List.append_assoc],
        parseArrElems_more g _ _ _ hA, string_mk_data]
      obtain ⟨T, hT⟩ := joinSep_dump_head s2 ss2 ('\n' :: ']' :: rest)
      rw [hT, parseArrElems_cons_ws (g + 1) '"' T, ← hT]
      rw [parseArrElems_round (s2 :: ss2) (g + 1) rest
        (fun x hx => hsimple x (by simp [hx])) (by simp)
        (by simp only [List.length_cons] at *; omega)]
      rfl

theorem jsonLoads_save (xs : List String)
    (h : ∀ s ∈ xs, ∀ c ∈ s.data, simpleChar c = true) :
    jsonLoads (save_processed_jobs xs) = some (JsonVal.arr (xs.map JsonVal.str)) := by
  cases xs with
  | nil => rfl
  | cons s ss =>
    have hdata : (save_processed_jobs (s :: ss)).data =
        '[' :: '\n' :: ' ' :: ' ' ::
          (joinSep ((s :: ss).map dumpStrOf) ++ ('\n' :: ']' :: [])) := rfl
    unfold jsonLoads
    rw [hdata]
    obtain ⟨T, hT⟩ := joinSep_dump_head s ss ('\n' :: ']' :: [])
    rw [hT]
    rw [show ('[' :: '\n' :: ' ' :: ' ' :: ('"' :: T) : List Char).length + 2 =
      ('[' :: '\n' :: ' ' :: ' ' :: ('"' :: T) : List Char).length + 1 + 1 from rfl]
    rw [parseVal_lbracket_ws3_quote]
    rw [← hT]
    have hlen := joinSep_dump_length (s :: ss)
    rw [parseArrElems_round (s :: ss) _ [] h (by simp) (by
      simp only [List.length_cons, List.length_append] at hlen ⊢
      omega)]
    rfl

theorem asStrings_map (xs : List String) :
    asStrings (xs.map JsonVal.str) = some xs := by
  induction xs with
  | nil => rfl
  | cons s ss ih => simp [asStrings, ih]

/-- C9 counterexample: the well-formed backing file `["\/"]` (a legal JSON
array of strings using the escaped-solidus spelling) loads as `["/"]`, and
re-saving that unmodified list writes `"/"` unescaped — the persisted
content differs from the original in a non-whitespace character. -/
theorem C9_counterexample :
    loadedStrings (FileReadResult.content "[\"\\/\"]") = some ["/"] ∧
    stripJsonWs false (save_processed_jobs ["/"]).data ≠
      stripJsonWs false ("[\"\\/\"]" : String).data := by
  exact ⟨by decide, by decide⟩

/-- C9 (amended): on a backing file in the exact canonical form `save`
itself produces (strings of printable ASCII and the shortcut-escaped
controls), `load()` returns precisely the stored list and re-saving it
reproduces the file byte-for-byte.  Files using alternative legal JSON
spellings (e.g. the `\/` escape) can change beyond whitespace. -/
theorem C9_roundtrip_canonical (xs : List String)
    (h : ∀ s ∈ xs, ∀ c ∈ s.data, simpleChar c = true) :
    get_processed_jobs (FileReadResult.content (save_processed_jobs xs)) =
      Except.ok (JsonVal.arr (xs.map JsonVal.str)) ∧
    asStringList (JsonVal.arr (xs.map JsonVal.str)) = some xs ∧
    (∀ ys, asStringList (JsonVal.arr (xs.map JsonVal.str)) = some ys →
      save_processed_jobs ys = save_processed_jobs xs) := by
  have hload := jsonLoads_save xs h
  refine ⟨?_, asStrings_map xs, fun ys hys => ?_⟩
  · have hc : get_processed_jobs (FileReadResult.content (save_processed_jobs xs)) =
        (match jsonLoads (save_processed_jobs xs) with
          | none => Except.ok (JsonVal.arr [])
          | some v => Except.ok v) := rfl
    rw [hc, hload]
  · have hxs : asStringList (JsonVal.arr (xs.map JsonVal.str)) = some xs :=
      asStrings_map xs
    rw [hxs] at hys
    obtain rfl := Option.some.inj hys
    rfl

theorem C9_witness :
    get_processed_jobs
        (FileReadResult.content (save_processed_jobs ["https://a.com/job1"])) =
      Except.ok (JsonVal.arr [JsonVal.str "https://a.com/job1"]) :=
  (C9_roundtrip_canonical ["https://a.com/job1"] (by decide)).1

theorem C6_witness :
    get_processed_jobs (FileReadResult.content "not json") =
      Except.ok (JsonVal.arr []) ∧
    get_processed_jobs (FileReadResult.content "[\"a\"]") =
      Except.ok (JsonVal.arr [JsonVal.str "a"]) :=
  ⟨C6_load_behaviour.2.1 "not json" rfl,
   C6_load_behaviour.2.2.1 "[\"a\"]" (JsonVal.arr [JsonVal.str "a"]) rfl⟩

end JobNotifier
